import Mathlib

/-!
Verification of the Graph-of-Operations execution engine
(`finance_workflows/local_got.py`): thoughts, operations
(Generate, Score, KeepBestN, Aggregate, GroundTruth, ValidateAndImprove),
the graph and the controller scheduler.

Python dictionaries are embedded as ordered association lists with a
first-match `lookup`; `{**a, **b}` becomes `dictMerge a b`.  The global
`Thought._ids` counter is threaded explicitly through every function that
constructs thoughts.  Python `assert` failures and exceptions are embedded
as `Except String`.  Scores (`float` in the source) are embedded as `Int`;
the claims under study depend only on ordering and on the default `0`.
-/

namespace GoT

/-- JSON-like values stored in a thought's state. -/
inductive Val where
  | str : String → Val
  | num : Int → Val
  | boolean : Bool → Val
  deriving DecidableEq, Repr

/-- A thought's `state`: an ordered mapping from string keys to values,
embedding a Python dict as an association list. -/
abbrev StateMap := List (String × Val)

/-- First-match lookup, the embedding of Python `d[k]` / `k in d`. -/
def lookup : StateMap → String → Option Val
  | [], _ => none
  | (k', v) :: rest, k => if k' = k then some v else lookup rest k

/-- Embedding of Python `{**a, **b}`: keys of `a` keep their position but
take `b`'s value when `b` also binds them; keys only in `b` are appended
in `b`'s order. -/
def dictMerge (a b : StateMap) : StateMap :=
  (a.map (fun p => match lookup b p.1 with
    | some v => (p.1, v)
    | none => p))
  ++ b.filter (fun p => (lookup a p.1).isNone)

/-- Embedding of the `Thought` class: state plus scoring/validation
metadata and the identifier drawn from the global counter. -/
structure Thought where
  id : Nat
  state : StateMap
  score : Int
  valid : Bool
  solved : Bool
  scored : Bool
  validated : Bool
  compared_to_ground_truth : Bool
  deriving DecidableEq, Repr

/-- `Thought.__init__`: fresh identifier from the counter, given state,
score `0.0`, all flags false.  Returns the thought and the new counter. -/
def newThought (s : StateMap) (c : Nat) : Thought × Nat :=
  ({ id := c, state := s, score := 0, valid := false, solved := false,
     scored := false, validated := false, compared_to_ground_truth := false }, c + 1)

/-- The `score` property setter: sets `scored` and stores the score. -/
def Thought.setScore (t : Thought) (v : Int) : Thought :=
  { t with scored := true, score := v }

/-- The `valid` property setter: sets `validated` and stores validity. -/
def Thought.setValid (t : Thought) (v : Bool) : Thought :=
  { t with validated := true, valid := v }

/-- The `solved` property setter: sets `compared_to_ground_truth` and
stores solvedness. -/
def Thought.setSolved (t : Thought) (v : Bool) : Thought :=
  { t with compared_to_ground_truth := true, solved := v }

/-- `Thought.from_thought`: a new thought built from `t.state`, then the
three value setters (each raising its flag), then direct assignment of
the three flags from `t`. -/
def Thought.from_thought (c : Nat) (t : Thought) : Thought × Nat :=
  let (n0, c') := newThought t.state c
  let n1 := n0.setScore t.score
  let n2 := n1.setValid t.valid
  let n3 := n2.setSolved t.solved
  let n4 := { n3 with scored := t.scored, validated := t.validated,
                      compared_to_ground_truth := t.compared_to_ground_truth }
  (n4, c')

/-- `[Thought.from_thought(t) for t in ts]`, threading the id counter. -/
def copyAll : List Thought → Nat → List Thought × Nat
  | [], c => ([], c)
  | t :: rest, c =>
      let (t', c1) := Thought.from_thought c t
      let (rest', c2) := copyAll rest c1
      (t' :: rest', c2)

/-- `[Thought(s) for s in ss]`, threading the id counter. -/
def newThoughts : List StateMap → Nat → List Thought × Nat
  | [], c => ([], c)
  | s :: rest, c =>
      let (t, c1) := newThought s c
      let (ts, c2) := newThoughts rest c1
      (t :: ts, c2)

/-- Descending comparison used by `sorted(..., key=score, reverse=True)`. -/
def descR (a b : Thought) : Prop := b.score ≤ a.score

/-- Ascending comparison used by `sorted(..., key=score)`. -/
def ascR (a b : Thought) : Prop := a.score ≤ b.score

instance : DecidableRel descR := fun a b => inferInstanceAs (Decidable (b.score ≤ a.score))

instance : DecidableRel ascR := fun a b => inferInstanceAs (Decidable (a.score ≤ b.score))

instance : IsTotal Thought descR := ⟨fun a b => le_total b.score a.score⟩

instance : IsTrans Thought descR := ⟨fun _ _ _ h1 h2 => le_trans h2 h1⟩

instance : IsTotal Thought ascR := ⟨fun a b => le_total a.score b.score⟩

instance : IsTrans Thought ascR := ⟨fun _ _ _ h1 h2 => le_trans h1 h2⟩

/-- Embedding of Python's stable `sorted(ts, key=lambda t: t.score,
reverse=higher)`: insertion sort with a non-strict comparison is exactly
the stable sort. -/
def sortByScore (higher : Bool) (ts : List Thought) : List Thought :=
  if higher then ts.insertionSort descR else ts.insertionSort ascR

/-- `KeepBestN.__init__` state after the `n > 0` assertion passed. -/
structure KeepBestNOp where
  n : Nat
  higher_is_better : Bool
  deriving Repr

/-- `KeepBestN.__init__`: asserts `n > 0`. -/
def KeepBestNOp.make (n : Int) (higher : Bool) : Except String KeepBestNOp :=
  if 0 < n then .ok ⟨n.toNat, higher⟩
  else .error "KeepBestN operation must keep at least one thought"

/-- `KeepBestN.get_best_n`: asserts every predecessor thought is scored,
then takes the first `n` of the stable sort by score. -/
def get_best_n (op : KeepBestNOp) (prev : List Thought) : Except String (List Thought) :=
  if prev.all Thought.scored then .ok ((sortByScore op.higher_is_better prev).take op.n)
  else .error "Not all thoughts have been scored"

/-- `KeepBestN._execute`: asserts at least one predecessor operation,
then copies the best `n` thoughts into the operation's own list. -/
def keepBestN_execute (op : KeepBestNOp) (numPreds : Nat) (prev : List Thought)
    (c : Nat) : Except String (List Thought × Nat) :=
  if numPreds = 0 then .error "KeepBestN operation must have at least one predecessor"
  else (get_best_n op prev).map (fun kept => copyAll kept c)

/-- Result of `parser.parse_aggregation_answer`: a single dict or a list. -/
inductive Parsed where
  | dict : StateMap → Parsed
  | list : List StateMap → Parsed

/-- `if isinstance(parsed, dict): parsed = [parsed]`. -/
def Parsed.toList : Parsed → List StateMap
  | .dict s => [s]
  | .list l => l

/-- The `base_state` fold of `Aggregate._execute`: predecessor thoughts
sorted ascending by score, states merged left to right (later, i.e.
higher-scored, thoughts' keys win). -/
def aggregateBase (prev : List Thought) : StateMap :=
  (sortByScore false prev).foldl (fun acc t => dictMerge acc t.state) []

/-- `Aggregate._execute`: asserts at least one predecessor operation,
returns early with no thoughts when there are no predecessor thoughts,
otherwise merges each parsed delta onto the base state to build one
fresh thought per delta.  The parsed deltas stand for
`parser.parse_aggregation_answer(states, responses)`. -/
def aggregate_execute (numPreds : Nat) (prev : List Thought) (parsed : Parsed)
    (c : Nat) : Except String (List Thought × Nat) :=
  if numPreds = 0 then .error "Aggregate operation must have at least one predecessor"
  else if prev.length = 0 then .ok ([], c)
  else
    let base := aggregateBase prev
    .ok (newThoughts (parsed.toList.map (fun ns => dictMerge base ns)) c)

/-- The `zip`-and-copy loop of `Score._execute` in combined mode: each
paired thought is copied and given its score via the `score` setter. -/
def scorePair : List (Thought × Int) → Nat → List Thought × Nat
  | [], c => ([], c)
  | (t, s) :: rest, c =>
      let (t', c1) := Thought.from_thought c t
      let t2 := t'.setScore s
      let (rest', c2) := scorePair rest c1
      (t2 :: rest', c2)

/-- `Score._execute` with `combined_scoring=True` and an injected scoring
function: asserts at least one predecessor operation, applies the scoring
function to the list of predecessor states, and pairs thoughts with
scores positionally via `zip`. -/
def score_execute_combined (numPreds : Nat) (prev : List Thought)
    (sf : List StateMap → List Int) (c : Nat) : Except String (List Thought × Nat) :=
  if numPreds = 0 then .error "Score operation needs at least one predecessor"
  else
    let scores := sf (prev.map Thought.state)
    .ok (scorePair (prev.zip scores) c)

/-- The evaluator injected into `GroundTruth`; `.error` embeds a raised
exception. -/
abbrev Evaluator := StateMap → Except String Bool

/-- The `try/except` around the evaluator call: an exception is caught
and treated as `solved = False`. -/
def evalCaught (ev : Evaluator) (s : StateMap) : Bool :=
  match ev s with
  | .ok b => b
  | .error _ => false

/-- The per-thought loop of `GroundTruth._execute`: copy the thought,
set `solved` from the (exception-catching) evaluator. -/
def gtAll (ev : Evaluator) : List Thought → Nat → List Thought × Nat
  | [], c => ([], c)
  | t :: rest, c =>
      let (t', c1) := Thought.from_thought c t
      let t2 := t'.setSolved (evalCaught ev t'.state)
      let (rest', c2) := gtAll ev rest c1
      (t2 :: rest', c2)

/-- `GroundTruth._execute`: asserts at least one predecessor operation,
then labels a copy of every predecessor thought. -/
def groundTruth_execute (ev : Evaluator) (numPreds : Nat) (prev : List Thought)
    (c : Nat) : Except String (List Thought × Nat) :=
  if numPreds = 0 then .error "GroundTruth operation must have at least one predecessor"
  else .ok (gtAll ev prev c)

/-- The external collaborators `Generate._execute` calls through:
`prompter.generate_prompt`, `lm.get_response_texts(lm.query(...))`
(merged into one function from prompt and response count to texts), and
`parser.parse_generate_answer`. -/
structure GenCollab where
  generate_prompt : Nat → StateMap → String
  query : String → Nat → List String
  parse_generate_answer : StateMap → List String → List StateMap

/-- The per-thought loop of `Generate._execute`: one language-model call
per input thought, each parsed delta merged over the base state into a
fresh thought.  The third component counts language-model calls. -/
def genLoop (nbp nbr : Nat) (co : GenCollab) :
    List Thought → Nat → (List Thought × Nat) × Nat
  | [], c => (([], c), 0)
  | t :: rest, c =>
      let base := t.state
      let responses := co.query (co.generate_prompt nbp base) nbr
      let states := (co.parse_generate_answer base responses).map
        (fun ns => dictMerge base ns)
      let (news, c1) := newThoughts states c
      let ((tailTs, c2), calls) := genLoop nbp nbr co rest c1
      ((news ++ tailTs, c2), calls + 1)

/-- `Generate._execute`: returns nothing when there are zero predecessor
thoughts but at least one predecessor operation; synthesizes one seed
thought from the problem parameters when the operation is a root;
otherwise generates from each predecessor thought.  The second component
of the result counts language-model calls. -/
def generate_execute (nbp nbr : Nat) (numPreds : Nat) (prev : List Thought)
    (kwargs : StateMap) (co : GenCollab) (c : Nat) : (List Thought × Nat) × Nat :=
  if prev.length = 0 ∧ 0 < numPreds then (([], c), 0)
  else
    let (seeds, c0) :=
      if prev.length = 0 then
        let (t, c') := newThought kwargs c
        ([t], c')
      else (prev, c)
    genLoop nbp nbr co seeds c0

/-- The `while True` retry loop of `ValidateAndImprove._execute` for one
input thought, structured on the remaining budget `numTries - currentTry`.
`vf = none` embeds the default "assume valid" validator.  Returns the
recorded attempt history for this input. -/
def vaiLoop (improve : Bool) (numTries : Nat) (vf : Option (StateMap → Bool))
    (currentTry : Nat) (cur : Thought) (c : Nat) : List Thought × Nat :=
  let validNow := match vf with
    | some f => f cur.state
    | none => true
  let cur' := cur.setValid validNow
  if ¬ improve ∨ validNow ∨ numTries ≤ currentTry then ([cur'], c)
  else
    let (next, c1) := Thought.from_thought c cur'
    let (rest, c2) := vaiLoop improve numTries vf (currentTry + 1) next c1
    (cur' :: rest, c2)
  termination_by numTries - currentTry
  decreasing_by
    simp only [not_or, not_le] at *
    omega

/-- The outer loop of `ValidateAndImprove._execute`: each predecessor
thought is copied and run through the retry loop from try `0`; the full
history of each input is recorded. -/
def vaiAll (improve : Bool) (numTries : Nat) (vf : Option (StateMap → Bool)) :
    List Thought → Nat → List (List Thought) × Nat
  | [], c => ([], c)
  | t :: rest, c =>
      let (t0, c1) := Thought.from_thought c t
      let (hist, c2) := vaiLoop improve numTries vf 0 t0 c1
      let (rest', c3) := vaiAll improve numTries vf rest c2
      (hist :: rest', c3)

/-- `ValidateAndImprove._execute`: asserts at least one predecessor
operation, then records one retry history per predecessor thought. -/
def validateAndImprove_execute (improve : Bool) (numTries : Nat)
    (vf : Option (StateMap → Bool)) (numPreds : Nat) (prev : List Thought)
    (c : Nat) : Except String (List (List Thought) × Nat) :=
  if numPreds = 0 then .error "ValidateAndImprove operation needs at least one predecessor"
  else .ok (vaiAll improve numTries vf prev c)

/-- `ValidateAndImprove.get_thoughts`: `thought_list[-1]` for each
recorded history, embedding the fallible Python indexing as `getLast?`. -/
def vai_get_thoughts (tls : List (List Thought)) : List (Option Thought) :=
  tls.map List.getLast?

/-! ### The scheduler (`Operation.can_be_executed`, `Controller.run`)

For the scheduling claims, operations are abstracted to their wiring:
operation `i` of a graph has predecessor indices `preds[i]` and successor
indices `succs[i]`, and an `executed` flag.  Executing an operation is
exactly the base-class effect `self.executed = True`; the
variant-specific `_execute` bodies do not touch any `executed` flag. -/

/-- The wiring of a `GraphOfOperations`.  `roots` is `Option` because the
source guards `Controller.run` with `assert roots is not None`; the
constructor initialises `roots = []`, i.e. `some []`. -/
structure SchedGraph where
  preds : List (List Nat)
  succs : List (List Nat)
  roots : Option (List Nat)

/-- The graph produced by `GraphOfOperations.__init__` with no operation
ever added: no operations, `roots = []` (not `None`). -/
def emptyGraph : SchedGraph := { preds := [], succs := [], roots := some [] }

/-- `Operation.can_be_executed`: every predecessor has `executed=True`.
`execed` maps operation index to its `executed` flag. -/
def can_be_executed (execed : List Bool) (preds : List Nat) : Bool :=
  preds.all (fun j => execed.getD j false)

/-- The only write `Operation.execute` performs on scheduling state:
`self.executed = True`. -/
def markExecuted (execed : List Bool) (i : Nat) : List Bool :=
  execed.set i true

/-- The ready-queue loop of `Controller.run`, with explicit fuel for the
embedding (the source's `while` loop).  Pops the queue head, checks the
`execute` precondition, marks the operation executed, checks each
successor is in the graph and appends the newly-ready ones. -/
def runLoop (g : SchedGraph) : Nat → List Bool → List Nat → Except String (List Bool)
  | _, execed, [] => .ok execed
  | 0, _, _ :: _ => .error "fuel exhausted"
  | fuel + 1, execed, i :: queue =>
      if can_be_executed execed (g.preds.getD i []) then
        let execed' := markExecuted execed i
        if (g.succs.getD i []).all (fun j => j < g.preds.length) then
          let ready := (g.succs.getD i []).filter
            (fun j => can_be_executed execed' (g.preds.getD j []))
          runLoop g fuel execed' (queue ++ ready)
        else .error "The successor of an operation is not in the operations graph"
      else .error "Not all predecessors have been executed"

/-- `Controller.run`: asserts `roots is not None`, seeds the queue with
every currently-ready operation, drains it, and finally sets
`run_executed = True`.  Returns the final `run_executed` flag together
with the final executed flags. -/
def controllerRun (g : SchedGraph) (fuel : Nat) : Except String (Bool × List Bool) :=
  match g.roots with
  | none => .error "The operations graph has no root"
  | some _ =>
      let execed0 := List.replicate g.preds.length false
      let queue0 := (List.range g.preds.length).filter
        (fun i => can_be_executed execed0 (g.preds.getD i []))
      (runLoop g fuel execed0 queue0).map (fun execed => (true, execed))

/-! ### Sample data used to instantiate theorems on concrete inputs -/

/-- A small concrete state. -/
def sampleState : StateMap := [("text", Val.str "abc")]

/-- A second concrete state sharing the key `"text"`. -/
def sampleState2 : StateMap := [("text", Val.str "de"), ("k", Val.num 1)]

/-- A concrete thought with id `0`. -/
def sampleA : Thought := (newThought sampleState 0).1

/-- A concrete scored thought with id `1` and score `10`. -/
def sampleB : Thought := (newThought sampleState2 1).1.setScore 10

/-- A concrete scored thought with id `2` and score `3`. -/
def sampleC : Thought := (newThought sampleState 2).1.setScore 3

/-- A concrete scored thought with id `3` and score `10`, tying `sampleB`. -/
def sampleD : Thought := (newThought sampleState 3).1.setScore 10

/-- A concrete generation collaborator. -/
def sampleCollab : GenCollab :=
  { generate_prompt := fun _ _ => "prompt"
    query := fun _ n => List.replicate n "resp"
    parse_generate_answer := fun _ rs => rs.map (fun r => [("out", Val.str r)]) }

/-! ### Helper lemmas -/

theorem from_thought_eq (c : Nat) (t : Thought) :
    Thought.from_thought c t =
      ({ id := c, state := t.state, score := t.score, valid := t.valid,
         solved := t.solved, scored := t.scored, validated := t.validated,
         compared_to_ground_truth := t.compared_to_ground_truth }, c + 1) := rfl

theorem gtAll_map (ev : Evaluator) :
    ∀ (prev : List Thought) (c : Nat),
      ((gtAll ev prev c).1.map
        (fun t => (t.state, t.solved, t.compared_to_ground_truth)))
        = prev.map (fun t => (t.state, evalCaught ev t.state, true)) := by
  intro prev
  induction prev with
  | nil => intro c; rfl
  | cons t rest ih =>
      intro c
      simp only [gtAll, from_thought_eq, Thought.setSolved, List.map_cons, ih]

theorem scorePair_map :
    ∀ (l : List (Thought × Int)) (c : Nat),
      ((scorePair l c).1.map (fun t => (t.state, t.score, t.scored)))
        = l.map (fun p => (p.1.state, p.2, true)) := by
  intro l
  induction l with
  | nil => intro c; rfl
  | cons p rest ih =>
      intro c
      simp only [scorePair, from_thought_eq, Thought.setScore, List.map_cons, ih]

theorem newThoughts_map_state :
    ∀ (ss : List StateMap) (c : Nat),
      (newThoughts ss c).1.map Thought.state = ss := by
  intro ss
  induction ss with
  | nil => intro c; rfl
  | cons s rest ih =>
      intro c
      simp only [newThoughts, newThought, List.map_cons, ih]

theorem copyAll_map :
    ∀ (l : List Thought) (c : Nat),
      ((copyAll l c).1.map (fun t =>
          (t.state, t.score, t.valid, t.solved, t.scored, t.validated,
           t.compared_to_ground_truth)))
        = l.map (fun t =>
          (t.state, t.score, t.valid, t.solved, t.scored, t.validated,
           t.compared_to_ground_truth)) := by
  intro l
  induction l with
  | nil => intro c; rfl
  | cons t rest ih =>
      intro c
      simp only [copyAll, from_thought_eq, List.map_cons, ih]

/-! ### Claim theorems -/

/-- C6: for every thought `t` (whose id precedes the current counter, the
invariant of the monotone id counter), `Thought.from_thought(t)` returns
a thought whose identifier differs from `t.id`, whose state is deep-equal
to `t.state`, and whose `score`, `valid`, `solved` values and `scored`,
`validated`, `comparedToGroundTruth` flags are all identical to `t`'s. -/
theorem from_thought_spec (t : Thought) (c : Nat) (h : t.id < c) :
    (Thought.from_thought c t).1.id ≠ t.id ∧
    (Thought.from_thought c t).1.state = t.state ∧
    (Thought.from_thought c t).1.score = t.score ∧
    (Thought.from_thought c t).1.valid = t.valid ∧
    (Thought.from_thought c t).1.solved = t.solved ∧
    (Thought.from_thought c t).1.scored = t.scored ∧
    (Thought.from_thought c t).1.validated = t.validated ∧
    (Thought.from_thought c t).1.compared_to_ground_truth
      = t.compared_to_ground_truth := by
  rw [from_thought_eq]
  exact ⟨(Nat.ne_of_lt h).symm, rfl, rfl, rfl, rfl, rfl, rfl, rfl⟩

/-- Witness for C6 at the concrete thought `sampleB` and counter `5`. -/
theorem from_thought_spec_witness :
    (Thought.from_thought 5 sampleB).1.id ≠ sampleB.id ∧
    (Thought.from_thought 5 sampleB).1.state = sampleB.state :=
  ⟨(from_thought_spec sampleB 5 (by decide)).1,
   (from_thought_spec sampleB 5 (by decide)).2.1⟩

/-- C7: `GroundTruth` over any predecessor thoughts and any injected
evaluator (including a throwing one) never propagates an exception: the
operation succeeds, produces exactly one copied thought per predecessor
thought, each with `comparedToGroundTruth` set and `solved` given by the
evaluator with exceptions downgraded to `false`. -/
theorem groundTruth_spec (ev : Evaluator) (numPreds : Nat) (prev : List Thought)
    (c : Nat) (h : 0 < numPreds) :
    (∀ s e, ev s = .error e → evalCaught ev s = false) ∧
    ∃ ts c', groundTruth_execute ev numPreds prev c = .ok (ts, c') ∧
      ts.length = prev.length ∧
      ts.map (fun t => (t.state, t.solved, t.compared_to_ground_truth))
        = prev.map (fun t => (t.state, evalCaught ev t.state, true)) := by
  refine ⟨fun s e he => by simp [evalCaught, he], ?_⟩
  refine ⟨(gtAll ev prev c).1, (gtAll ev prev c).2, ?_, ?_, gtAll_map ev prev c⟩
  · simp [groundTruth_execute, Nat.pos_iff_ne_zero.mp h]
  · have := congrArg List.length (gtAll_map ev prev c)
    simpa using this

/-- Witness for C7 with a throwing evaluator on one concrete thought. -/
theorem groundTruth_spec_witness :
    (∀ s e, (fun _ : StateMap => (Except.error "boom" : Except String Bool)) s
        = .error e →
      evalCaught (fun _ => .error "boom") s = false) ∧
    ∃ ts c', groundTruth_execute (fun _ => .error "boom") 1 [sampleA] 0
        = .ok (ts, c') ∧
      ts.length = [sampleA].length ∧
      ts.map (fun t => (t.state, t.solved, t.compared_to_ground_truth))
        = [sampleA].map (fun t =>
            (t.state, evalCaught (fun _ => .error "boom") t.state, true)) :=
  groundTruth_spec (fun _ => .error "boom") 1 [sampleA] 0 (by decide)

/-- C9: `Score` in combined mode with an injected scoring function pairs
predecessor thoughts with the returned scores positionally via `zip`, so
the output count is the minimum of the two lengths, unpaired thoughts
are silently dropped, and no error is raised. -/
theorem score_combined_spec (numPreds : Nat) (prev : List Thought)
    (sf : List StateMap → List Int) (c : Nat) (h : 0 < numPreds) :
    ∃ ts c', score_execute_combined numPreds prev sf c = .ok (ts, c') ∧
      ts.length = min prev.length (sf (prev.map Thought.state)).length ∧
      ts.map (fun t => (t.state, t.score, t.scored))
        = (prev.zip (sf (prev.map Thought.state))).map
            (fun p => (p.1.state, p.2, true)) := by
  refine ⟨(scorePair (prev.zip (sf (prev.map Thought.state))) c).1,
          (scorePair (prev.zip (sf (prev.map Thought.state))) c).2, ?_, ?_,
          scorePair_map _ c⟩
  · simp [score_execute_combined, Nat.pos_iff_ne_zero.mp h]
  · have := congrArg List.length (scorePair_map (prev.zip (sf (prev.map Thought.state))) c)
    simpa using this

/-- Witness for C9: three thoughts, a scoring function returning only two
scores — exactly two output thoughts. -/
theorem score_combined_spec_witness :
    ∃ ts c', score_execute_combined 1 [sampleA, sampleB, sampleC]
        (fun _ => [4, 7]) 0 = .ok (ts, c') ∧
      ts.length = min [sampleA, sampleB, sampleC].length
        ((fun _ : List StateMap => [(4 : Int), 7])
          ([sampleA, sampleB, sampleC].map Thought.state)).length ∧
      ts.map (fun t => (t.state, t.score, t.scored))
        = ([sampleA, sampleB, sampleC].zip
            ((fun _ : List StateMap => [(4 : Int), 7])
              ([sampleA, sampleB, sampleC].map Thought.state))).map
            (fun p => (p.1.state, p.2, true)) :=
  score_combined_spec 1 [sampleA, sampleB, sampleC] (fun _ => [4, 7]) 0 (by decide)

/-- C2 (code behaviour at the failing input): `Controller.run` on the
empty graph — which has no root operation — passes the
`roots is not None` assertion (because `roots` is initialised to the
empty list, not `None`), executes nothing, completes normally and sets
`run_executed = true`, for every fuel. -/
theorem controllerRun_empty_ok (fuel : Nat) :
    controllerRun emptyGraph fuel = .ok (true, []) := by
  cases fuel <;> rfl

/-- C8: `canBeExecuted` is monotonic over a run: executing operations only
ever sets `executed` flags from false to true (`markExecuted`), and once
`can_be_executed` holds for an operation's predecessor list it holds after
any further sequence of executions. -/
theorem can_be_executed_monotone (e : List Bool) (preds : List Nat)
    (steps : List Nat) (h : can_be_executed e preds = true) :
    can_be_executed (steps.foldl markExecuted e) preds = true := by
  induction steps generalizing e with
  | nil => exact h
  | cons i rest ih =>
      refine ih (markExecuted e i) ?_
      simp only [can_be_executed, List.all_eq_true] at h ⊢
      intro j hj
      have hje := h j hj
      by_cases hlt : j < e.length
      · by_cases hij : i = j
        · subst hij
          simp [markExecuted, List.getD, List.getElem?_set_self, hlt]
        · simpa [markExecuted, List.getD, List.getElem?_set_ne hij] using hje
      · exfalso
        have hnone : e[j]? = none := List.getElem?_eq_none (le_of_not_lt hlt)
        simp [List.getD, hnone] at hje

/-- Witness for C8: an operation whose predecessor `0` is executed stays
ready after executing operations `1` and `2`. -/
theorem can_be_executed_monotone_witness :
    can_be_executed ([1, 2].foldl markExecuted [true, false, false]) [0] = true :=
  can_be_executed_monotone [true, false, false] [0] [1, 2] (by decide)

theorem genLoop_singleton (nbp nbr : Nat) (co : GenCollab) (t : Thought) (c : Nat) :
    genLoop nbp nbr co [t] c =
      (newThoughts ((co.parse_generate_answer t.state
          (co.query (co.generate_prompt nbp t.state) nbr)).map
          (fun ns => dictMerge t.state ns)) c, 1) := by
  simp [genLoop]

/-- C5: `Generate` executed with zero available predecessor thoughts:
with at least one predecessor operation it produces zero thoughts and
makes zero language-model calls; as a root it synthesizes exactly one
implicit seed thought whose state is the problem parameters, generates
from that single seed (one language-model call), and its outputs are the
parsed deltas merged over the seed state. -/
theorem generate_spec :
    (∀ (nbp nbr numPreds : Nat) (kwargs : StateMap) (co : GenCollab) (c : Nat),
      0 < numPreds →
      generate_execute nbp nbr numPreds [] kwargs co c = (([], c), 0)) ∧
    (∀ (nbp nbr : Nat) (kwargs : StateMap) (co : GenCollab) (c : Nat),
      (newThought kwargs c).1.state = kwargs ∧
      generate_execute nbp nbr 0 [] kwargs co c
        = genLoop nbp nbr co [(newThought kwargs c).1] (c + 1) ∧
      ∃ ts c', generate_execute nbp nbr 0 [] kwargs co c = ((ts, c'), 1) ∧
        ts.map Thought.state
          = (co.parse_generate_answer kwargs
              (co.query (co.generate_prompt nbp kwargs) nbr)).map
              (fun ns => dictMerge kwargs ns)) := by
  constructor
  · intro nbp nbr numPreds kwargs co c h
    simp [generate_execute, h]
  · intro nbp nbr kwargs co c
    have hg : generate_execute nbp nbr 0 [] kwargs co c
        = genLoop nbp nbr co [(newThought kwargs c).1] (c + 1) := by
      simp [generate_execute, newThought]
    refine ⟨rfl, hg, ?_⟩
    rw [hg, genLoop_singleton]
    exact ⟨_, _, rfl, newThoughts_map_state _ _⟩

/-- Witness for C5 at a concrete collaborator and problem parameters. -/
theorem generate_spec_witness :
    generate_execute 1 2 1 [] sampleState sampleCollab 0 = (([], 0), 0) ∧
    ∃ ts c', generate_execute 1 2 0 [] sampleState sampleCollab 0 = ((ts, c'), 1) ∧
      ts.map Thought.state
        = (sampleCollab.parse_generate_answer sampleState
            (sampleCollab.query (sampleCollab.generate_prompt 1 sampleState) 2)).map
            (fun ns => dictMerge sampleState ns) :=
  ⟨generate_spec.1 1 2 1 sampleState sampleCollab 0 (by decide),
   (generate_spec.2 1 2 sampleState sampleCollab 0).2.2⟩

theorem vaiLoop_false_len (f : StateMap → Bool) (hf : ∀ s, f s = false) :
    ∀ (d nT ct : Nat) (cur : Thought) (c : Nat), nT - ct ≤ d →
      (vaiLoop true nT (some f) ct cur c).1.length = (nT - ct) + 1 := by
  intro d
  induction d with
  | zero =>
      intro nT ct cur c hle
      have hct : nT ≤ ct := by omega
      rw [vaiLoop]
      simp [hf, hct]
  | succ n ih =>
      intro nT ct cur c hle
      by_cases hct : nT ≤ ct
      · rw [vaiLoop]
        simp [hf, hct]
      · rw [vaiLoop]
        simp only [hf, Bool.false_eq_true, or_false, false_or, not_true_eq_false,
          hct, if_false]
        simp only [List.length_cons]
        rw [ih nT (ct + 1) _ _ (by omega)]
        omega

theorem vaiAll_len (improve : Bool) (numTries : Nat)
    (vf : Option (StateMap → Bool)) :
    ∀ (prev : List Thought) (c : Nat),
      (vaiAll improve numTries vf prev c).1.length = prev.length := by
  intro prev
  induction prev with
  | nil => intro c; rfl
  | cons t rest ih => intro c; simp [vaiAll, ih]

theorem vaiAll_mem_len (f : StateMap → Bool) (hf : ∀ s, f s = false)
    (numTries : Nat) :
    ∀ (prev : List Thought) (c : Nat) (hist : List Thought),
      hist ∈ (vaiAll true numTries (some f) prev c).1 →
      hist.length = numTries + 1 := by
  intro prev
  induction prev with
  | nil => intro c hist h; simp [vaiAll] at h
  | cons t rest ih =>
      intro c hist h
      simp only [vaiAll, List.mem_cons] at h
      rcases h with h | h
      · subst h
        have := vaiLoop_false_len f hf numTries numTries 0
          (Thought.from_thought c t).1 (Thought.from_thought c t).2 (by omega)
        simpa using this
      · exact ih _ _ h

/-- C1, counterexample to the claim as stated: for `ValidateAndImprove`
with `improve=true`, `numTries=3` and an always-false validator, on one
input thought the recorded history has 4 attempts, not 3 — the loop
appends an attempt before comparing `current_try` with `num_tries`. -/
theorem validateAndImprove_counterexample :
    ((validateAndImprove_execute true 3 (some (fun _ => false)) 1 [sampleA] 0).toOption.map
      (fun p => p.1.map List.length)) = some [4] ∧
    ((validateAndImprove_execute true 3 (some (fun _ => false)) 1 [sampleA] 0).toOption.map
      (fun p => p.1.map List.length)) ≠ some [3] := by
  have hrun : validateAndImprove_execute true 3 (some (fun _ => false)) 1 [sampleA] 0
      = .ok (vaiAll true 3 (some (fun _ => false)) [sampleA] 0) := by
    simp [validateAndImprove_execute]
  have hlen : ∀ hist ∈ (vaiAll true 3 (some (fun _ => false)) [sampleA] 0).1,
      hist.length = 4 := by
    intro hist h
    exact vaiAll_mem_len (fun _ => false) (fun _ => rfl) 3 [sampleA] 0 hist h
  have hall : (vaiAll true 3 (some (fun _ => false)) [sampleA] 0).1.length = 1 :=
    vaiAll_len true 3 (some (fun _ => false)) [sampleA] 0
  rcases hv : (vaiAll true 3 (some (fun _ => false)) [sampleA] 0).1 with _ | ⟨h0, rest⟩
  · rw [hv] at hall; simp at hall
  · rcases rest with _ | ⟨h1, rest2⟩
    · have h0len : h0.length = 4 := hlen h0 (by rw [hv]; exact List.mem_cons_self _ _)
      constructor
      · rw [hrun]
        simp [Except.toOption, hv, h0len]
      · rw [hrun]
        simp [Except.toOption, hv, h0len]
    · rw [hv] at hall; simp at hall

/-- C1, amended: for `ValidateAndImprove(improve=true, numTries=3)` with
an always-false validator over a non-empty input, each input's recorded
retry history has exactly 4 attempts (`numTries + 1`: the initial
validation plus `numTries` improvement retries), and `getThoughts()`
exposes exactly one thought per input, namely the last attempt of that
input's history. -/
theorem validateAndImprove_spec (f : StateMap → Bool) (hf : ∀ s, f s = false)
    (numPreds : Nat) (hp : 0 < numPreds) (prev : List Thought) (hne : prev ≠ [])
    (c : Nat) :
    ∃ tls c', validateAndImprove_execute true 3 (some f) numPreds prev c
        = .ok (tls, c') ∧
      tls.length = prev.length ∧
      (∀ hist ∈ tls, hist.length = 4) ∧
      vai_get_thoughts tls = tls.map List.getLast? ∧
      (∀ i, i < tls.length → ∃ hist t, tls[i]? = some hist ∧
          hist.getLast? = some t ∧ (vai_get_thoughts tls)[i]? = some (some t)) := by
  have hne' : prev.length ≠ 0 := fun h => hne (List.length_eq_zero.mp h)
  refine ⟨(vaiAll true 3 (some f) prev c).1, (vaiAll true 3 (some f) prev c).2,
    ?_, vaiAll_len true 3 (some f) prev c,
    fun hist h => vaiAll_mem_len f hf 3 prev c hist h, rfl, ?_⟩
  · simp [validateAndImprove_execute, Nat.pos_iff_ne_zero.mp hp]
  · intro i hi
    set tls := (vaiAll true 3 (some f) prev c).1 with htls
    obtain ⟨hist, hhist⟩ : ∃ h, tls[i]? = some h :=
      ⟨tls[i], (List.getElem?_eq_some_iff).mpr ⟨hi, rfl⟩⟩
    have hmem : hist ∈ tls := by
      have := List.getElem?_eq_some_iff.mp hhist
      rcases this with ⟨hlt, heq⟩
      exact heq ▸ List.getElem_mem hlt
    have hlen : hist.length = 4 := vaiAll_mem_len f hf 3 prev c hist hmem
    have hchar : hist ≠ [] := by
      intro h; rw [h] at hlen; simp at hlen
    obtain ⟨t, ht⟩ := Option.isSome_iff_exists.mp (List.getLast?_isSome.mpr hchar)
    refine ⟨hist, t, hhist, ht, ?_⟩
    simp [vai_get_thoughts, List.getElem?_map, hhist, ht]

/-- Witness for the amended C1 at one concrete input thought. -/
theorem validateAndImprove_spec_witness :
    ∃ tls c', validateAndImprove_execute true 3 (some (fun _ => false)) 1 [sampleA] 0
        = .ok (tls, c') ∧
      tls.length = [sampleA].length ∧
      (∀ hist ∈ tls, hist.length = 4) ∧
      vai_get_thoughts tls = tls.map List.getLast? ∧
      (∀ i, i < tls.length → ∃ hist t, tls[i]? = some hist ∧
          hist.getLast? = some t ∧ (vai_get_thoughts tls)[i]? = some (some t)) :=
  validateAndImprove_spec (fun _ => false) (fun _ => rfl) 1 (by decide)
    [sampleA] (by decide) 0

theorem filter_orderedInsert_of (r : Thought → Thought → Prop) [DecidableRel r]
    (p : Thought → Bool) (x : Thought) :
    ∀ l : List Thought,
      (∀ y ∈ l, ¬ r x y → p x = true → p y = true → False) →
      (List.orderedInsert r x l).filter p =
        if p x then x :: l.filter p else l.filter p := by
  intro l
  induction l with
  | nil =>
      intro _
      simp [List.orderedInsert, List.filter_singleton]
  | cons y ys ih =>
      intro h
      by_cases hr : r x y
      · rw [List.orderedInsert, if_pos hr, List.filter_cons]
      · rw [List.orderedInsert, if_neg hr, List.filter_cons]
        have hrec := ih (fun z hz hrz => h z (List.mem_cons_of_mem y hz) hrz)
        by_cases hpy : p y = true
        · have hpx : ¬ p x = true := fun hpx => h y (List.mem_cons_self y ys) hr hpx hpy
          rw [if_pos hpy, hrec, if_neg hpx, if_neg hpx, List.filter_cons, if_pos hpy]
        · rw [if_neg hpy, hrec]
          by_cases hpx : p x = true
          · rw [if_pos hpx, if_pos hpx, List.filter_cons, if_neg hpy]
          · rw [if_neg hpx, if_neg hpx, List.filter_cons, if_neg hpy]

theorem filter_insertionSort_of (r : Thought → Thought → Prop) [DecidableRel r]
    (p : Thought → Bool)
    (hrp : ∀ x y : Thought, ¬ r x y → p x = true → p y = true → False) :
    ∀ l : List Thought, (l.insertionSort r).filter p = l.filter p := by
  intro l
  induction l with
  | nil => rfl
  | cons x xs ih =>
      rw [List.insertionSort, filter_orderedInsert_of r p x _
        (fun y _ => hrp x y), ih, List.filter_cons]

theorem lookup_append (l1 l2 : StateMap) (k : String) :
    lookup (l1 ++ l2) k = ((lookup l1 k).or (lookup l2 k)) := by
  induction l1 with
  | nil => simp [lookup]
  | cons p rest ih =>
      by_cases hk : p.1 = k
      · simp [lookup, hk, Option.or]
      · simpa [lookup, hk] using ih

theorem lookup_map_subst (b : StateMap) (k : String) :
    ∀ a : StateMap,
      lookup (a.map (fun p => match lookup b p.1 with
        | some v => (p.1, v)
        | none => p)) k
        = match lookup a k with
          | none => none
          | some v => match lookup b k with
            | some w => some w
            | none => some v := by
  intro a
  induction a with
  | nil => simp [lookup]
  | cons q rest ih =>
      by_cases hk : q.1 = k
      · subst hk
        rcases hb : lookup b q.1 with _ | w <;>
          simp [lookup, hb]
      · rcases hq : lookup b q.1 with _ | w <;>
          simpa [lookup, hq, hk] using ih

theorem lookup_filter_isNone (a : StateMap) (k : String) :
    ∀ b : StateMap,
      lookup (b.filter (fun p => (lookup a p.1).isNone)) k
        = if (lookup a k).isSome then none else lookup b k := by
  intro b
  induction b with
  | nil => simp [lookup]
  | cons q rest ih =>
      by_cases hk : q.1 = k
      · subst hk
        rcases ha : lookup a q.1 with _ | v
        · simp [List.filter_cons, lookup, ha]
        · simpa [List.filter_cons, lookup, ha] using ih
      · rcases ha : lookup a q.1 with _ | v
        · by_cases haq : (lookup a q.1).isNone
          · simpa [List.filter_cons, haq, lookup, hk] using ih
          · simpa [List.filter_cons, haq, lookup, hk] using ih
        · by_cases haq : (lookup a q.1).isNone
          · simpa [List.filter_cons, haq, lookup, hk] using ih
          · simpa [List.filter_cons, haq, lookup, hk] using ih

theorem lookup_dictMerge (a b : StateMap) (k : String) :
    lookup (dictMerge a b) k = ((lookup b k).or (lookup a k)) := by
  rw [dictMerge, lookup_append, lookup_map_subst, lookup_filter_isNone]
  rcases ha : lookup a k with _ | v <;> rcases hb : lookup b k with _ | w <;>
    simp [Option.or]

theorem lookup_foldl_merge (k : String) (v : Val) :
    ∀ (l : List Thought) (init : StateMap),
      l.Sorted ascR →
      lookup (l.foldl (fun acc t => dictMerge acc t.state) init) k = some v →
      (lookup init k = some v ∧ ∀ t ∈ l, lookup t.state k = none) ∨
      ∃ t ∈ l, lookup t.state k = some v ∧
        ∀ u ∈ l, (lookup u.state k).isSome → u.score ≤ t.score := by
  intro l
  induction l with
  | nil =>
      intro init _ h
      exact .inl ⟨h, by simp⟩
  | cons t rest ih =>
      intro init hsort h
      have hpair := List.sorted_cons.mp hsort
      rcases ih (dictMerge init t.state) hpair.2 h with ⟨hinit, hnone⟩ | ⟨w, hw, hwv, hmax⟩
      · rw [lookup_dictMerge] at hinit
        rcases hts : lookup t.state k with _ | w
        · rw [hts] at hinit
          left
          refine ⟨by simpa [Option.or] using hinit, ?_⟩
          intro u hu
          rcases List.mem_cons.mp hu with h1 | h1
          · rw [h1]; exact hts
          · exact hnone u h1
        · rw [hts] at hinit
          have hwv' : w = v := by simpa [Option.or] using hinit
          right
          refine ⟨t, List.mem_cons_self t rest, by rw [hts, hwv'], ?_⟩
          intro u hu hus
          rcases List.mem_cons.mp hu with h1 | h1
          · rw [h1]
          · exfalso; rw [hnone u h1] at hus; simp at hus
      · right
        refine ⟨w, List.mem_cons_of_mem t hw, hwv, ?_⟩
        intro u hu hus
        rcases List.mem_cons.mp hu with h1 | h1
        · rw [h1]; exact hpair.1 w hw
        · exact hmax u h1 hus

theorem aggregateBase_winner (prev : List Thought) (k : String) (v : Val)
    (h : lookup (aggregateBase prev) k = some v) :
    ∃ t ∈ prev, lookup t.state k = some v ∧
      ∀ u ∈ prev, (lookup u.state k).isSome → u.score ≤ t.score := by
  have hsort : (prev.insertionSort ascR).Sorted ascR :=
    List.sorted_insertionSort ascR prev
  have h' : lookup ((prev.insertionSort ascR).foldl
      (fun acc t => dictMerge acc t.state) []) k = some v := by
    rw [aggregateBase, sortByScore] at h
    simpa using h
  rcases lookup_foldl_merge k v (prev.insertionSort ascR) [] hsort h' with
    ⟨hinit, _⟩ | ⟨t, ht, htv, hmax⟩
  · simp [lookup] at hinit
  · exact ⟨t, (List.mem_insertionSort ascR).mp ht, htv,
      fun u hu hus => hmax u ((List.mem_insertionSort ascR).mpr hu) hus⟩

/-- C3: `KeepBestN` with `n ≥ 1`, `higherIsBetter=true`, over `M ≥ n`
scored predecessor thoughts, keeps exactly `n` thoughts — copies of the
first `n` of the stable descending sort — each kept score is `≥` every
dropped score, the kept-plus-dropped lists are a permutation of the
input, and among equal-scored thoughts the kept ones preserve the
inputs' original relative order; an unscored predecessor thought or
`n < 1` at construction is fatal. -/
theorem keepBestN_spec :
    (∀ (nInt : Int), 0 < nInt → ∀ (numPreds : Nat), 0 < numPreds →
      ∀ (prev : List Thought), prev.all Thought.scored = true →
      nInt.toNat ≤ prev.length → ∀ (c : Nat),
      KeepBestNOp.make nInt true = .ok ⟨nInt.toNat, true⟩ ∧
      (∃ ts c',
        keepBestN_execute ⟨nInt.toNat, true⟩ numPreds prev c = .ok (ts, c') ∧
        ts.length = nInt.toNat ∧
        ts.map (fun t => (t.state, t.score, t.valid, t.solved, t.scored,
            t.validated, t.compared_to_ground_truth))
          = ((sortByScore true prev).take nInt.toNat).map (fun t =>
              (t.state, t.score, t.valid, t.solved, t.scored, t.validated,
               t.compared_to_ground_truth))) ∧
      (∀ x ∈ (sortByScore true prev).take nInt.toNat,
        ∀ y ∈ (sortByScore true prev).drop nInt.toNat, y.score ≤ x.score) ∧
      prev.Perm ((sortByScore true prev).take nInt.toNat
        ++ (sortByScore true prev).drop nInt.toNat) ∧
      (∀ v : Int, List.Sublist
          (((sortByScore true prev).take nInt.toNat).filter
            (fun t => t.score == v))
          (prev.filter (fun t => t.score == v)))) ∧
    (∀ (nInt : Int) (hb : Bool), nInt < 1 →
      KeepBestNOp.make nInt hb
        = .error "KeepBestN operation must keep at least one thought") ∧
    (∀ (op : KeepBestNOp) (numPreds : Nat) (prev : List Thought) (c : Nat)
        (t : Thought), 0 < numPreds → t ∈ prev → t.scored = false →
      keepBestN_execute op numPreds prev c
        = .error "Not all thoughts have been scored") := by
  refine ⟨?_, ?_, ?_⟩
  · intro nInt hn numPreds hp prev hs hm c
    have hsorted : (prev.insertionSort descR).Sorted descR :=
      List.sorted_insertionSort descR prev
    have hlen : (prev.insertionSort descR).length = prev.length :=
      (List.perm_insertionSort descR prev).length_eq
    have hsbs : sortByScore true prev = prev.insertionSort descR := by
      simp [sortByScore]
    refine ⟨by simp [KeepBestNOp.make, hn], ?_, ?_, ?_, ?_⟩
    · refine ⟨(copyAll ((sortByScore true prev).take nInt.toNat) c).1,
        (copyAll ((sortByScore true prev).take nInt.toNat) c).2, ?_, ?_,
        copyAll_map _ c⟩
      · simp [keepBestN_execute, get_best_n, hs, Nat.pos_iff_ne_zero.mp hp,
          Except.map]
      · have h1 := congrArg List.length (copyAll_map
          ((sortByScore true prev).take nInt.toNat) c)
        simp only [List.length_map] at h1
        rw [h1, hsbs, List.length_take, hlen]
        omega
    · intro x hx y hy
      have hp2 : List.Pairwise descR ((prev.insertionSort descR).take nInt.toNat
          ++ (prev.insertionSort descR).drop nInt.toNat) := by
        rw [List.take_append_drop]; exact hsorted
      rw [hsbs] at hx hy
      exact (List.pairwise_append.mp hp2).2.2 x hx y hy
    · rw [hsbs, List.take_append_drop]
      exact (List.perm_insertionSort descR prev).symm
    · intro v
      have hfil : ((prev.insertionSort descR).filter (fun t => t.score == v))
          = prev.filter (fun t => t.score == v) :=
        filter_insertionSort_of descR (fun t => t.score == v)
          (fun x y hr hx hy => hr (le_of_eq (by
            have hx' : x.score = v := by simpa using hx
            have hy' : y.score = v := by simpa using hy
            rw [hx', hy']))) prev
      rw [hsbs, ← hfil]
      exact List.Sublist.filter _ (List.take_sublist nInt.toNat _)
  · intro nInt hb hlt
    have hn : ¬ 0 < nInt := by omega
    simp [KeepBestNOp.make, hn]
  · intro op numPreds prev c t hp ht hts
    have hall : ¬ (prev.all Thought.scored = true) := by
      simp only [List.all_eq_true]
      intro hall
      rw [hall t ht] at hts
      exact absurd hts (by simp)
    simp [keepBestN_execute, get_best_n, hall, Nat.pos_iff_ne_zero.mp hp,
      Except.map]

/-- C4: `Aggregate` over non-empty predecessor thoughts folds their
states in ascending-score order, so a key conflict is won by a
predecessor thought of maximal score among those holding the key; each
parsed delta is merged onto the base state with delta keys winning, one
output thought per delta; a single-object parser result is treated as a
singleton list. -/
theorem aggregate_spec :
    (∀ s : StateMap, (Parsed.dict s).toList = [s]) ∧
    (∀ (a b : StateMap) (k : String),
      lookup (dictMerge a b) k = ((lookup b k).or (lookup a k))) ∧
    (∀ (numPreds : Nat) (prev : List Thought) (parsed : Parsed) (c : Nat),
      0 < numPreds → prev ≠ [] →
      ∃ ts c', aggregate_execute numPreds prev parsed c = .ok (ts, c') ∧
        ts.map Thought.state
          = parsed.toList.map (fun d => dictMerge (aggregateBase prev) d)) ∧
    (∀ (prev : List Thought) (k : String) (v : Val),
      lookup (aggregateBase prev) k = some v →
      ∃ t ∈ prev, lookup t.state k = some v ∧
        ∀ u ∈ prev, (lookup u.state k).isSome → u.score ≤ t.score) := by
  refine ⟨fun s => rfl, lookup_dictMerge, ?_, aggregateBase_winner⟩
  intro numPreds prev parsed c hp hne
  have hlen : prev.length ≠ 0 := fun h => hne (List.length_eq_zero.mp h)
  refine ⟨(newThoughts (parsed.toList.map
      (fun d => dictMerge (aggregateBase prev) d)) c).1,
    (newThoughts (parsed.toList.map
      (fun d => dictMerge (aggregateBase prev) d)) c).2, ?_,
    newThoughts_map_state _ c⟩
  simp [aggregate_execute, Nat.pos_iff_ne_zero.mp hp, hlen]

/-- C10: `Aggregate` imposes no `scored` precondition: a freshly created
thought reads `score = 0` with `scored = false`, the operation succeeds
even when some predecessor thought is unscored, and an unscored thought
(score `0`) loses any key conflict to a positively-scored holder of the
key: the winning value always comes from a positively-scored
predecessor thought. -/
theorem aggregate_no_scored_precondition :
    (∀ (s : StateMap) (c : Nat),
      (newThought s c).1.score = 0 ∧ (newThought s c).1.scored = false) ∧
    (∀ (numPreds : Nat) (prev : List Thought) (parsed : Parsed) (c : Nat)
        (t : Thought), 0 < numPreds → t ∈ prev → t.scored = false →
      ∃ r, aggregate_execute numPreds prev parsed c = .ok r) ∧
    (∀ (prev : List Thought) (t u : Thought) (k : String) (v : Val),
      t ∈ prev → u ∈ prev → t.scored = false → t.score = 0 → 0 < u.score →
      (lookup u.state k).isSome →
      lookup (aggregateBase prev) k = some v →
      ∃ w ∈ prev, 0 < w.score ∧ lookup w.state k = some v) := by
  refine ⟨fun s c => ⟨rfl, rfl⟩, ?_, ?_⟩
  · intro numPreds prev parsed c t hp ht hts
    by_cases hlen : prev.length = 0
    · exact ⟨([], c), by simp [aggregate_execute, Nat.pos_iff_ne_zero.mp hp, hlen]⟩
    · exact ⟨(newThoughts (parsed.toList.map
          (fun d => dictMerge (aggregateBase prev) d)) c),
        by simp [aggregate_execute, Nat.pos_iff_ne_zero.mp hp, hlen]⟩
  · intro prev t u k v ht hu hts htz hus huk hbase
    obtain ⟨w, hw, hwv, hmax⟩ := aggregateBase_winner prev k v hbase
    exact ⟨w, hw, lt_of_lt_of_le hus (hmax u hu huk), hwv⟩

/-- Witness for C3: three scored thoughts (scores 10, 3, 10), keep 2;
plus the two fatal cases on concrete inputs. -/
theorem keepBestN_spec_witness :
    KeepBestNOp.make 2 true = .ok ⟨(2 : Int).toNat, true⟩ ∧
    (∃ ts c', keepBestN_execute ⟨(2 : Int).toNat, true⟩ 1
        [sampleB, sampleC, sampleD] 0 = .ok (ts, c') ∧
      ts.length = (2 : Int).toNat ∧
      ts.map (fun t => (t.state, t.score, t.valid, t.solved, t.scored,
          t.validated, t.compared_to_ground_truth))
        = ((sortByScore true [sampleB, sampleC, sampleD]).take
            (2 : Int).toNat).map (fun t =>
            (t.state, t.score, t.valid, t.solved, t.scored, t.validated,
             t.compared_to_ground_truth))) ∧
    KeepBestNOp.make 0 true
      = .error "KeepBestN operation must keep at least one thought" ∧
    keepBestN_execute ⟨1, true⟩ 1 [sampleA] 0
      = .error "Not all thoughts have been scored" :=
  ⟨(keepBestN_spec.1 2 (by decide) 1 (by decide) [sampleB, sampleC, sampleD]
      (by decide) (by decide) 0).1,
   (keepBestN_spec.1 2 (by decide) 1 (by decide) [sampleB, sampleC, sampleD]
      (by decide) (by decide) 0).2.1,
   keepBestN_spec.2.1 0 true (by decide),
   keepBestN_spec.2.2 ⟨1, true⟩ 1 [sampleA] 0 sampleA (by decide) (by decide)
     (by decide)⟩

/-- Witness for C4 over two concrete thoughts whose states share the key
`"text"`: the higher-scored holder's value wins. -/
theorem aggregate_spec_witness :
    (∃ ts c', aggregate_execute 1 [sampleB, sampleC]
        (Parsed.dict [("r", Val.num 2)]) 0 = .ok (ts, c') ∧
      ts.map Thought.state = (Parsed.dict [("r", Val.num 2)]).toList.map
        (fun d => dictMerge (aggregateBase [sampleB, sampleC]) d)) ∧
    (∃ t ∈ [sampleB, sampleC], lookup t.state "text" = some (Val.str "de") ∧
      ∀ u ∈ [sampleB, sampleC], (lookup u.state "text").isSome →
        u.score ≤ t.score) :=
  ⟨aggregate_spec.2.2.1 1 [sampleB, sampleC] (Parsed.dict [("r", Val.num 2)]) 0
     (by decide) (by decide),
   aggregate_spec.2.2.2 [sampleB, sampleC] "text" (Val.str "de") (by decide)⟩

/-- Witness for C10: an unscored thought and a positively-scored thought
sharing the key `"text"`: the operation succeeds and the winning value
comes from the positively-scored thought. -/
theorem aggregate_no_scored_precondition_witness :
    (∃ r, aggregate_execute 1 [sampleA, sampleB]
        (Parsed.dict [("r", Val.num 2)]) 0 = .ok r) ∧
    (∃ w ∈ [sampleA, sampleB], 0 < w.score ∧
      lookup w.state "text" = some (Val.str "de")) :=
  ⟨aggregate_no_scored_precondition.2.1 1 [sampleA, sampleB]
      (Parsed.dict [("r", Val.num 2)]) 0 sampleA (by decide) (by decide)
      (by decide),
   aggregate_no_scored_precondition.2.2 [sampleA, sampleB] sampleA sampleB
      "text" (Val.str "de") (by decide) (by decide) (by decide) (by decide)
      (by decide) (by decide) (by decide)⟩

end GoT
